import Mathlib

/-!
Shallow embedding of the `xrtlibrary-traverse` library.

The embedding follows `src/core/traverse.ts` (class `Traverse` and its error
taxonomy) together with its leaf collaborators: the type-equality helper
(`IsInstanceOf` / `IsSameType`, `src/core/type`), the string validator
(`ValidateString`, `src/core/validator.ts`) and the text-pattern detector
(`IsInteger`, `src/core/text/detector.js`).

JavaScript runtime values are modelled by the inductive type `Value`:

* Engine numbers are IEEE doubles; the claims under verification only
  exercise integral values, so numbers are modelled by `Int`.
* `vnative` stands for an opaque host object (for example the function
  `Object.prototype.toString` reached through the prototype chain).
* Errors raised by the engine itself (for example the native `TypeError`
  thrown by the `in` operator on a non-object operand, or by reading
  `.constructor` of `undefined`) are modelled by the `hostError` variant of
  `TErr`; they are distinct from every error of the library's taxonomy.
-/

/-- A JavaScript runtime value, as far as the library can observe it. -/
inductive Value where
  | vnull
  | vundefined
  | vbool (b : Bool)
  | vint (n : Int)
  | vstr (s : String)
  | varr (elems : List Value)
  | vobj (fields : List (String × Value))
  | vmap (entries : List (Value × Value))
  | vset (elems : List Value)
  | vnative (tag : String)

/-- The error taxonomy of `Traverse` (namespace `Traverse` in the source),
plus `hostError` for exceptions raised by the JavaScript engine itself
(which are not part of the library's taxonomy). `baseError` is the root
`Traverse.Error` kind. -/
inductive TErr where
  | baseError
  | paramError
  | typeError
  | formatError
  | parseError
  | sizeError
  | keyNotFound
  | indexOutOfRange
  | valueOutOfRange
  | hostError
deriving DecidableEq, Repr

/-- The closed set of constructors ("kinds") that the claims exercise:
`Number`, `Boolean`, `String`, `Array`, `Object`, `Map`, `Set`, `Function`. -/
inductive Kind where
  | kNumber
  | kBoolean
  | kString
  | kArray
  | kObject
  | kMap
  | kSet
  | kFunction
deriving DecidableEq, Repr

/-- `true` exactly on the `null` sentinel (`v === null`). -/
def Value.isNullB : Value → Bool
  | .vnull => true
  | _ => false

/-- `true` exactly on `undefined`. -/
def Value.isUndefB : Value → Bool
  | .vundefined => true
  | _ => false

/-- JavaScript `typeof` tag of a value (`typeof null` is `"object"`). -/
def typeofTag : Value → String
  | .vnull => "object"
  | .vundefined => "undefined"
  | .vbool _ => "boolean"
  | .vint _ => "number"
  | .vstr _ => "string"
  | .varr _ => "object"
  | .vobj _ => "object"
  | .vmap _ => "object"
  | .vset _ => "object"
  | .vnative _ => "function"

/-- Reading `x.constructor`.  On `null` and `undefined` the property access
itself throws a native `TypeError`, modelled by `hostError`. -/
def constructorKind : Value → Except TErr Kind
  | .vnull => .error .hostError
  | .vundefined => .error .hostError
  | .vbool _ => .ok .kBoolean
  | .vint _ => .ok .kNumber
  | .vstr _ => .ok .kString
  | .varr _ => .ok .kArray
  | .vobj _ => .ok .kObject
  | .vmap _ => .ok .kMap
  | .vset _ => .ok .kSet
  | .vnative _ => .ok .kFunction

/-- `CrType.IsInstanceOf(instance, constructor)` (src/core/type): for the
primitive constructors `Number`/`Boolean`/`String` it compares
`instance.constructor == constructor` (which throws a native error when
`instance` is `null`/`undefined`); for every other constructor it uses the
`instanceof` operator.  Note that arrays, maps, sets and functions are all
`instanceof Object`. -/
def isInstanceOf (v : Value) (k : Kind) : Except TErr Bool :=
  match k with
  | .kNumber => (constructorKind v).map (fun ck => ck = .kNumber)
  | .kBoolean => (constructorKind v).map (fun ck => ck = .kBoolean)
  | .kString => (constructorKind v).map (fun ck => ck = .kString)
  | .kArray =>
    match v with
    | .varr _ => .ok true
    | _ => .ok false
  | .kObject =>
    match v with
    | .varr _ => .ok true
    | .vobj _ => .ok true
    | .vmap _ => .ok true
    | .vset _ => .ok true
    | .vnative _ => .ok true
    | _ => .ok false
  | .kMap =>
    match v with
    | .vmap _ => .ok true
    | _ => .ok false
  | .kSet =>
    match v with
    | .vset _ => .ok true
    | _ => .ok false
  | .kFunction =>
    match v with
    | .vnative _ => .ok true
    | _ => .ok false

/-- `CrType.IsSameType(instance1, instance2)` (src/core/type): `false` when
exactly one side is `null`, or exactly one side is `undefined`; otherwise
`typeof` tags must agree and `IsInstanceOf(instance1, instance2.constructor)`
must hold (short-circuited, so an unequal tag never reads `.constructor`;
two `null`s or two `undefined`s do reach `.constructor` and crash). -/
def isSameType (a b : Value) : Except TErr Bool :=
  if a.isNullB ≠ b.isNullB then .ok false
  else if a.isUndefB ≠ b.isUndefB then .ok false
  else if typeofTag a ≠ typeofTag b then .ok false
  else do
    let k ← constructorKind b
    isInstanceOf a k

/-- The traversal node: the wrapped value plus its diagnostic path.  The
memoisation fields of the source (`pckNotNull`, `pckTypeOf`) only skip
repeated checks and are observationally irrelevant to the claims; they are
omitted from the model. -/
structure Traverse where
  inner : Value
  path : String

/-- `Traverse.prototype._GetSubPath` (src/core/traverse.ts:118-124). -/
def getSubPath (path name : String) : String :=
  if path.length = 0 || path.data.getLast? = some '/' then path ++ name
  else path ++ "/" ++ name

/-- `WrapObject` (src/core/traverse.ts:1753-1759).  A `Value` is never a
`Traverse`, so the idempotent-wrap shortcut is vacuous in the model. -/
def wrapObject (v : Value) : Traverse := ⟨v, "/"⟩

/-- `Traverse.prototype.isNull` (src/core/traverse.ts:1467-1469). -/
def isNullOp (t : Traverse) : Bool := t.inner.isNullB

/-- `Traverse.prototype.unwrap` (src/core/traverse.ts:1578-1580). -/
def unwrapOp (t : Traverse) : Value := t.inner

/-- `Traverse.prototype.notNull` (src/core/traverse.ts:583-600); the
`pckNotNull` memo only skips the re-check and is omitted. -/
def notNullOp (t : Traverse) : Except TErr Traverse :=
  if t.inner.isNullB then .error .typeError else .ok t

/-- `Traverse.prototype.typeOf` (src/core/traverse.ts:142-172), restricted to
the closed `Kind` set (every `Kind` is a valid constructor, so the
`ParameterError` branch for a non-constructor argument is out of scope);
the `pckTypeOf` memo is omitted.  A `null` inner value passes unchecked. -/
def typeOfOp (t : Traverse) (k : Kind) : Except TErr Traverse :=
  if t.inner.isNullB then .ok t
  else do
    let b ← isInstanceOf t.inner k
    if b then .ok t else .error .typeError

/-- Default comparator `lt` (`a < b` with JavaScript native ordering,
src/core/traverse.ts:1700-1702).  It is only reached behind an
`IsSameType` guard; for same-kind primitives the native ordering is numeric
on numbers, lexicographic on strings and `false < true` on booleans.
Relational comparison of structural values goes through the host
`ToPrimitive` machinery and is outside the embedding (no claim compares
structural values); it is modelled as `false`. -/
def jsLt : Value → Value → Bool
  | .vint a, .vint b => a < b
  | .vstr a, .vstr b => a < b
  | .vbool a, .vbool b => !a && b
  | _, _ => false

/-- Default comparator `gt` (`a > b`, src/core/traverse.ts:1728-1730); same
modelling notes as `jsLt`. -/
def jsGt : Value → Value → Bool
  | .vint a, .vint b => b < a
  | .vstr a, .vstr b => b < a
  | .vbool a, .vbool b => !b && a
  | _, _ => false

/-- `Traverse.prototype.min` with the default comparator
(src/core/traverse.ts:620-642): skip when `null`, `ParameterError` on a
kind mismatch, `ValueOutOfRangeError` when `inner < threshold`. -/
def minOp (t : Traverse) (threshold : Value) : Except TErr Traverse :=
  if t.inner.isNullB then .ok t
  else do
    let same ← isSameType t.inner threshold
    if !same then .error .paramError
    else if jsLt t.inner threshold then .error .valueOutOfRange
    else .ok t

/-- `Traverse.prototype.max` with the default comparator
(src/core/traverse.ts:704-726): skip when `null`, `ParameterError` on a
kind mismatch, `ValueOutOfRangeError` when `inner > threshold`. -/
def maxOp (t : Traverse) (threshold : Value) : Except TErr Traverse :=
  if t.inner.isNullB then .ok t
  else do
    let same ← isSameType t.inner threshold
    if !same then .error .paramError
    else if jsGt t.inner threshold then .error .valueOutOfRange
    else .ok t

/-- `ValidateString` (src/core/validator.ts): every character of `text` must
occur in `charTable`. -/
def validateString (text charTable : String) : Bool :=
  text.data.all (fun c => charTable.data.contains c)

/-- `Traverse.prototype.stringValidate` (src/core/traverse.ts:251-271) for a
string-typed character table (the `ParameterError` branch for a non-string
table is out of scope): skip when `null`, else require string kind, then
`FormatError` unless every character is allowed. -/
def stringValidateOp (t : Traverse) (charTable : String) : Except TErr Traverse :=
  if t.inner.isNullB then .ok t
  else do
    let t ← typeOfOp t .kString
    match t.inner with
    | .vstr s =>
      if validateString s charTable then .ok t else .error .formatError
    | _ => .error .typeError

/-- Projection used to state error contracts without deciding equality of
whole `Traverse` results: the error of a failed computation, `none` on
success. -/
def errOf {α : Type} : Except TErr α → Option TErr
  | .error e => some e
  | .ok _ => none

/-- Projection: the wrapped value of a successful computation. -/
def innerOf : Except TErr Traverse → Option Value
  | .ok t => some t.inner
  | .error _ => none

/-- Projection: the path of a successful computation's node. -/
def pathOf : Except TErr Traverse → Option String
  | .ok t => some t.path
  | .error _ => none

/-- The decimal digit character for `n < 10`. -/
def digitChar (n : Nat) : Char := Char.ofNat (48 + n)

/-- Numeric value of a decimal digit character. -/
def digitVal (c : Char) : Nat := c.toNat - 48

/-- Decimal digits of `n`, most significant first; `fuel`-driven so that the
definition is structural (any `fuel > n` is sufficient). -/
def natDigitsAux : Nat → Nat → List Char
  | 0, _ => []
  | fuel + 1, n =>
    if n < 10 then [digitChar n]
    else natDigitsAux fuel (n / 10) ++ [digitChar (n % 10)]

/-- Decimal representation of a natural number, as characters. -/
def natChars (n : Nat) : List Char := natDigitsAux (n + 1) n

/-- Decimal representation of an integer, as characters (JavaScript
`String(n)` / `JSON.stringify(n)` for an integral number). -/
def intChars (n : Int) : List Char :=
  if n < 0 then '-' :: natChars n.natAbs else natChars n.toNat

/-- Value of a list of decimal digit characters, most significant first. -/
def digitsToNat (ds : List Char) : Nat :=
  ds.foldl (fun a c => 10 * a + digitVal c) 0

/-- Body of the strict-integer grammar: `0|[1-9][0-9]*`
(`REGEX_INTEGER` without the optional sign, src/core/text/detector.js:17). -/
def isIntBody : List Char → Bool
  | ['0'] => true
  | c :: cs => ('1' ≤ c && c ≤ '9') && cs.all Char.isDigit
  | [] => false

/-- `IsInteger` (src/core/text/detector.js:39-41): the test
`/^-?(0|[1-9]([0-9]*))$/.test(text)`. -/
def isIntegerStr (s : String) : Bool :=
  match s.data with
  | '-' :: rest => isIntBody rest
  | cs => isIntBody cs

/-- `parseInt(s, 10)` as used on strings that already passed `IsInteger`
(optional sign followed by decimal digits); `parseInt("-0")` is `-0`,
which equals the integer zero. -/
def parseIntM (s : String) : Int :=
  match s.data with
  | '-' :: rest => -(digitsToNat rest : Int)
  | cs => (digitsToNat cs : Int)

/-- `Traverse.prototype.stringToInteger` (src/core/traverse.ts:326-344):
`notNull().typeOf(String)`, then `FormatError` unless `IsInteger` accepts
the string, then a new node wrapping the parsed integer at sub-path
`[str->int]`. -/
def stringToIntegerOp (t : Traverse) : Except TErr Traverse :=
  if t.inner.isNullB then .error .typeError
  else
    match t.inner with
    | .vstr s =>
      if isIntegerStr s then
        .ok ⟨.vint (parseIntM s), getSubPath t.path "[str->int]"⟩
      else .error .formatError
    | .vundefined => .error .hostError
    | _ => .error .typeError

mutual

/-- JavaScript `ToString` (and `ToPropertyKey`, which agrees with it for
non-symbol values).  Arrays stringify through `Array.prototype.join`
(elements stringified recursively, `null`/`undefined` elements become the
empty string); plain objects give `"[object Object]"`, maps and sets their
corresponding brand strings; for an opaque host object the model carries
its own print string in the `vnative` tag. -/
def jsToString : Value → String
  | .vnull => "null"
  | .vundefined => "undefined"
  | .vbool true => "true"
  | .vbool false => "false"
  | .vint n => String.mk (intChars n)
  | .vstr s => s
  | .varr xs => jsArrJoin xs
  | .vobj _ => "[object Object]"
  | .vmap _ => "[object Map]"
  | .vset _ => "[object Set]"
  | .vnative tag => tag
/-- `Array.prototype.join` with the default comma separator. -/
def jsArrJoin : List Value → String
  | [] => ""
  | [x] =>
    match x with
    | .vnull => ""
    | .vundefined => ""
    | x => jsToString x
  | x :: y :: xs =>
    (match x with
     | .vnull => ""
     | .vundefined => ""
     | x => jsToString x) ++ "," ++ jsArrJoin (y :: xs)

end

/-- JavaScript strict equality `===` (also SameValueZero for the non-float
values of the model).  Distinct structural values are compared by
reference in the engine; reference identity is not expressible on
inductive values, so structural operands are modelled as unequal (no claim
exercises that case). -/
def jsStrictEq : Value → Value → Bool
  | .vnull, .vnull => true
  | .vundefined, .vundefined => true
  | .vbool a, .vbool b => a = b
  | .vint a, .vint b => a = b
  | .vstr a, .vstr b => a = b
  | _, _ => false

/-- Property names inherited by every plain object (`{}`) from
`Object.prototype`; the `in` operator reports these as present. -/
def objectProtoProps : List String :=
  ["constructor", "hasOwnProperty", "isPrototypeOf", "propertyIsEnumerable",
   "toLocaleString", "toString", "valueOf", "__defineGetter__",
   "__defineSetter__", "__lookupGetter__", "__lookupSetter__", "__proto__"]

/-- Representative inherited property names of arrays
(`Array.prototype` and, transitively, `Object.prototype`). -/
def arrayProtoProps : List String :=
  ["length", "push", "pop", "shift", "unshift", "splice", "slice", "concat",
   "join", "indexOf", "forEach", "map", "filter"] ++ objectProtoProps

/-- Representative inherited property names of maps (`Map.prototype`). -/
def mapProtoProps : List String :=
  ["size", "get", "set", "has", "delete", "clear", "forEach", "keys",
   "values", "entries"] ++ objectProtoProps

/-- Representative inherited property names of sets (`Set.prototype`). -/
def setProtoProps : List String :=
  ["size", "add", "has", "delete", "clear", "forEach", "keys", "values",
   "entries"] ++ objectProtoProps

/-- Representative inherited property names of functions
(`Function.prototype`). -/
def functionProtoProps : List String :=
  ["length", "name", "call", "apply", "bind"] ++ objectProtoProps

/-- `key` names an own index/length property of an array of length `len`:
the canonical numeric strings `"0"`, `"1"`, ... below the length. -/
def arrayIndexProp (key : String) (len : Nat) : Bool :=
  isIntBody key.data && digitsToNat key.data < len

/-- The JavaScript `in` operator on an object receiver: own properties
first, then the prototype chain.  (For a non-object receiver `in` throws;
that case is handled at each call site.) -/
def jsHasProp (receiver : Value) (key : String) : Bool :=
  match receiver with
  | .vobj fields => fields.any (fun f => f.1 = key) || objectProtoProps.contains key
  | .varr xs => arrayIndexProp key xs.length || arrayProtoProps.contains key
  | .vmap _ => mapProtoProps.contains key
  | .vset _ => setProtoProps.contains key
  | .vnative _ => functionProtoProps.contains key
  | _ => false

/-- Property read `receiver[key]` on an object receiver: the own property
value if present, else the inherited host object (opaque), else
`undefined`. -/
def jsGetProp (receiver : Value) (key : String) : Value :=
  match receiver with
  | .vobj fields =>
    match fields.find? (fun f => f.1 = key) with
    | some f => f.2
    | none =>
      if objectProtoProps.contains key then .vnative ("Object.prototype." ++ key)
      else .vundefined
  | .varr xs =>
    if arrayIndexProp key xs.length then xs.getD (digitsToNat key.data) .vundefined
    else if arrayProtoProps.contains key then .vnative ("Array.prototype." ++ key)
    else .vundefined
  | .vmap _ =>
    if mapProtoProps.contains key then .vnative ("Map.prototype." ++ key) else .vundefined
  | .vset _ =>
    if setProtoProps.contains key then .vnative ("Set.prototype." ++ key) else .vundefined
  | .vnative _ =>
    if functionProtoProps.contains key then .vnative ("Function.prototype." ++ key)
    else .vundefined
  | _ => .vundefined

/-- `Traverse.prototype.oneOf` (src/core/traverse.ts:1483-1514): skip when
`null`; membership by `Set.has` / `Map.has` (key membership) /
`Array.indexOf` / the `in` operator for a plain object (which also sees
properties inherited from `Object.prototype`); `ParameterError` for a
non-object selections value; `KeyNotFoundError` when not found. -/
def oneOfOp (t : Traverse) (selections : Value) : Except TErr Traverse :=
  if t.inner.isNullB then .ok t
  else
    match selections with
    | .vset xs =>
      if xs.any (fun x => jsStrictEq x t.inner) then .ok t else .error .keyNotFound
    | .vmap entries =>
      if entries.any (fun e => jsStrictEq e.1 t.inner) then .ok t else .error .keyNotFound
    | .varr xs =>
      if xs.any (fun x => jsStrictEq x t.inner) then .ok t else .error .keyNotFound
    | .vobj fields =>
      if jsHasProp (.vobj fields) (jsToString t.inner) then .ok t
      else .error .keyNotFound
    | .vnative tag =>
      if jsHasProp (.vnative tag) (jsToString t.inner) then .ok t
      else .error .keyNotFound
    | _ => .error .paramError

/-- `Traverse.prototype.customRule` (src/core/traverse.ts:1533-1560) for an
invocable callback (the `ParameterError` branch for a non-function
callback is out of scope).  The callback is always invoked with the inner
value — there is no null shortcut; a non-strict-boolean result is a
`ParameterError`, `false` is the generic base `Error`, `true` returns
self. -/
def customRuleOp (t : Traverse) (cb : Value → Value) : Except TErr Traverse :=
  match cb t.inner with
  | .vbool true => .ok t
  | .vbool false => .error .baseError
  | _ => .error .paramError

/-- `Traverse.prototype.sub` (src/core/traverse.ts:475-518): `notNull()`;
a `Map` inner is looked up by key (any type); any other object inner
requires a string name and is looked up with the `in` operator (which also
sees inherited properties); a non-object inner is a `TypeError`. -/
def subOp (t : Traverse) (name : Value) : Except TErr Traverse :=
  if t.inner.isNullB then .error .typeError
  else
    let subPath := getSubPath t.path (jsToString name)
    match t.inner with
    | .vmap entries =>
      match entries.find? (fun e => jsStrictEq e.1 name) with
      | some e => .ok ⟨e.2, subPath⟩
      | none => .error .keyNotFound
    | .vobj fields =>
      match name with
      | .vstr key =>
        if jsHasProp (.vobj fields) key then .ok ⟨jsGetProp (.vobj fields) key, subPath⟩
        else .error .keyNotFound
      | _ => .error .paramError
    | .varr xs =>
      match name with
      | .vstr key =>
        if jsHasProp (.varr xs) key then .ok ⟨jsGetProp (.varr xs) key, subPath⟩
        else .error .keyNotFound
      | _ => .error .paramError
    | .vset xs =>
      match name with
      | .vstr key =>
        if jsHasProp (.vset xs) key then .ok ⟨jsGetProp (.vset xs) key, subPath⟩
        else .error .keyNotFound
      | _ => .error .paramError
    | .vnative tag =>
      match name with
      | .vstr key =>
        if jsHasProp (.vnative tag) key then .ok ⟨jsGetProp (.vnative tag) key, subPath⟩
        else .error .keyNotFound
      | _ => .error .paramError
    | _ => .error .typeError

/-- `Traverse.prototype.selectFromObject` (src/core/traverse.ts:849-864):
`notNull().typeOf(String)` on the inner key, then directly
`inner_str in from` — there is no validity check on `from`; when `from` is
not an object the `in` operator throws a native `TypeError`
(`hostError`), and the `in` operator sees inherited properties. -/
def selectFromObjectOp (t : Traverse) (fromV : Value) : Except TErr Traverse :=
  if t.inner.isNullB then .error .typeError
  else
    match t.inner with
    | .vstr key =>
      match fromV with
      | .vobj _ | .varr _ | .vmap _ | .vset _ | .vnative _ =>
        if jsHasProp fromV key then .ok ⟨jsGetProp fromV key, getSubPath t.path key⟩
        else .error .keyNotFound
      | _ => .error .hostError
    | .vundefined => .error .hostError
    | _ => .error .typeError

/-- `Traverse.prototype.arraySetItem` (src/core/traverse.ts:1131-1156):
`ParameterError` when the offset is not an integer; `IndexOutOfRangeError`
when the offset is negative — both checked before the null shortcut; then
a no-op when `null`; else array kind required, `IndexOutOfRangeError` when
the offset is ≥ the length, else the element is stored in place and self
is returned. -/
def arraySetItemOp (t : Traverse) (offset : Value) (value : Value) : Except TErr Traverse :=
  match offset with
  | .vint i =>
    if i < 0 then .error .indexOutOfRange
    else if t.inner.isNullB then .ok t
    else
      match t.inner with
      | .varr arr =>
        if (arr.length : Int) ≤ i then .error .indexOutOfRange
        else .ok ⟨.varr (arr.set i.toNat value), t.path⟩
      | _ => .error .typeError
  | _ => .error .paramError

/-- One reverse pass of `Traverse.prototype.arrayForEach`
(src/core/traverse.ts:1310-1323).  The callback is modelled as a pure
decision per visited element: `(stop, delete)` — whether it invoked the
`stop` / `delete` verbs of the iteration-callbacks object.  After each
callback the deletion is applied first (`splice(cursor, 1)`), then the
stop request is honoured, then the cursor moves down. -/
def afeRev (cb : Value → Bool × Bool) : List Value → Nat → List Value
  | arr, 0 =>
    let flags := cb (arr.getD 0 .vundefined)
    if flags.2 then arr.eraseIdx 0 else arr
  | arr, c + 1 =>
    let flags := cb (arr.getD (c + 1) .vundefined)
    let arr2 := if flags.2 then arr.eraseIdx (c + 1) else arr
    if flags.1 then arr2 else afeRev cb arr2 c

/-- Forward pass of `Traverse.prototype.arrayForEach`
(src/core/traverse.ts:1325-1340): after a deletion the cursor stays (the
next element slides into place), otherwise it advances; then a stop
request is honoured. -/
def afeFwd (cb : Value → Bool × Bool) (arr : List Value) (cursor : Nat) : List Value :=
  if h : cursor < arr.length then
    match cb (arr.getD cursor .vundefined) with
    | (stop, del) =>
      if stop then (if del then arr.eraseIdx cursor else arr)
      else afeFwd cb (if del then arr.eraseIdx cursor else arr)
        (if del then cursor else cursor + 1)
  else arr
termination_by arr.length - cursor
decreasing_by
  rcases del with _ | _ <;> simp [List.length_eraseIdx, h] <;> omega

/-- `Traverse.prototype.arrayForEach` (src/core/traverse.ts:1285-1345):
no-op when `null`, array kind required; iterates with the direction
selected by `reverse` and returns self (the underlying array mutated in
place; the model returns the node with the final array). -/
def arrayForEachOp (t : Traverse) (cb : Value → Bool × Bool) (reverse : Bool) :
    Except TErr Traverse :=
  if t.inner.isNullB then .ok t
  else
    match t.inner with
    | .varr arr =>
      let res :=
        if reverse then
          match arr with
          | [] => arr
          | _ => afeRev cb arr (arr.length - 1)
        else afeFwd cb arr 0
      .ok ⟨.varr res, t.path⟩
    | _ => .error .typeError

/-- Lower-case hexadecimal digit character for `n < 16`. -/
def hexDigitChar (n : Nat) : Char :=
  if n < 10 then Char.ofNat (48 + n) else Char.ofNat (87 + n)

/-- `true` on `0-9a-fA-F`. -/
def isHexDigit (c : Char) : Bool :=
  c.isDigit || ('a' ≤ c && c ≤ 'f') || ('A' ≤ c && c ≤ 'F')

/-- Numeric value of a hexadecimal digit character. -/
def hexVal (c : Char) : Nat :=
  if c.isDigit then c.toNat - 48
  else if 'a' ≤ c && c ≤ 'f' then c.toNat - 87
  else c.toNat - 55

/-- `JSON.stringify` escaping of one string character: `"` and `\` get a
backslash escape, the five named control characters get their short
escapes, every other control character becomes `\u00XX` (lower-case hex),
and all remaining characters are emitted literally.  (Lean characters are
Unicode scalar values, so the lone-surrogate escaping of well-formed
`JSON.stringify` cannot arise.) -/
def escapeChar (c : Char) : List Char :=
  if c = '"' then ['\\', '"']
  else if c = '\\' then ['\\', '\\']
  else if c.toNat < 32 then
    if c = '\x08' then ['\\', 'b']
    else if c = '\x09' then ['\\', 't']
    else if c = '\x0a' then ['\\', 'n']
    else if c = '\x0c' then ['\\', 'f']
    else if c = '\x0d' then ['\\', 'r']
    else ['\\', 'u', '0', '0', hexDigitChar (c.toNat / 16), hexDigitChar (c.toNat % 16)]
  else [c]

/-- Escape every character of a string body. -/
def escapeList : List Char → List Char
  | [] => []
  | c :: cs => escapeChar c ++ escapeList cs

/-- `JSON.stringify` of a string value: quoted, body escaped. -/
def serializeStringChars (s : String) : List Char :=
  '"' :: escapeList s.data ++ ['"']

/-- A value that `JSON.stringify` treats as absent: `undefined` and
functions (dropped as object members, `null` as array elements). -/
def isUndefLike : Value → Bool
  | .vundefined => true
  | .vnative _ => true
  | _ => false

mutual

/-- `JSON.stringify` as consumed by `Traverse.prototype.jsonSave`
(src/core/traverse.ts:428-456), on the inductive value model: `null`,
booleans, integral numbers, strings, arrays and plain objects serialize
per the JSON grammar (no whitespace); maps and sets have no own enumerable
properties and serialize as an empty object.  `undefined`/function array
elements serialize as `null` (the `vundefined`/`vnative` equations below);
`undefined`/function object members are dropped (`serializeFields`); the
top-level `undefined` result of `JSON.stringify` is handled by
`stringifyTop`.  A cyclic value — the `TypeError` case — cannot be
constructed inductively. -/
def serializeV : Value → List Char
  | .vnull => "null".data
  | .vundefined => "null".data
  | .vnative _ => "null".data
  | .vbool true => "true".data
  | .vbool false => "false".data
  | .vint n => intChars n
  | .vstr s => serializeStringChars s
  | .varr xs => '[' :: serializeElems xs ++ [']']
  | .vobj fs => '{' :: serializeFields fs ++ ['}']
  | .vmap _ => ['{', '}']
  | .vset _ => ['{', '}']
/-- Array elements, comma-separated. -/
def serializeElems : List Value → List Char
  | [] => []
  | [x] => serializeV x
  | x :: y :: xs => serializeV x ++ ',' :: serializeElems (y :: xs)
/-- Object members, comma-separated `"key":value`; members with
`undefined`/function values are dropped, and a comma is emitted only when
a later member survives. -/
def serializeFields : List (String × Value) → List Char
  | [] => []
  | (k, v) :: fs =>
    if isUndefLike v then serializeFields fs
    else
      match serializeFields fs with
      | [] => serializeStringChars k ++ ':' :: serializeV v
      | tail => serializeStringChars k ++ ':' :: serializeV v ++ ',' :: tail

end

/-- Top-level `JSON.stringify`: `none` models the host returning
`undefined` (for `undefined` and function inputs). -/
def stringifyTop (v : Value) : Option String :=
  match v with
  | .vundefined => none
  | .vnative _ => none
  | v => some (String.mk (serializeV v))

/-- `Traverse.prototype.jsonSave` (src/core/traverse.ts:428-456): serialize
the inner value and wrap the resulting JSON text at sub-path
`[JSON(Save)]`.  When the host serializer returns `undefined` the new node
wraps `undefined` (no error is raised); the `TypeError` branch for cyclic
values cannot fire on inductive values. -/
def jsonSaveOp (t : Traverse) : Except TErr Traverse :=
  let subPath := getSubPath t.path "[JSON(Save)]"
  match stringifyTop t.inner with
  | some s => .ok ⟨.vstr s, subPath⟩
  | none => .ok ⟨.vundefined, subPath⟩

/-- Parse a JSON string body after the opening quote, returning the decoded
characters and the input after the closing quote.  Raw control characters
are rejected; the escapes `\" \\ \/ \b \f \n \r \t \uXXXX` are decoded.
(Surrogate-pair combination cannot arise for the scalar-value characters
of the model.) -/
def parseStrBody : List Char → Option (List Char × List Char)
  | [] => none
  | c :: rest =>
    if c = '"' then some ([], rest)
    else if c = '\\' then
      match rest with
      | [] => none
      | e :: r =>
        if e = '"' then (parseStrBody r).map (fun p => ('"' :: p.1, p.2))
        else if e = '\\' then (parseStrBody r).map (fun p => ('\\' :: p.1, p.2))
        else if e = '/' then (parseStrBody r).map (fun p => ('/' :: p.1, p.2))
        else if e = 'b' then (parseStrBody r).map (fun p => ('\x08' :: p.1, p.2))
        else if e = 'f' then (parseStrBody r).map (fun p => ('\x0c' :: p.1, p.2))
        else if e = 'n' then (parseStrBody r).map (fun p => ('\x0a' :: p.1, p.2))
        else if e = 'r' then (parseStrBody r).map (fun p => ('\x0d' :: p.1, p.2))
        else if e = 't' then (parseStrBody r).map (fun p => ('\x09' :: p.1, p.2))
        else if e = 'u' then
          match r with
          | h1 :: h2 :: h3 :: h4 :: r2 =>
            if isHexDigit h1 && isHexDigit h2 && isHexDigit h3 && isHexDigit h4 then
              (parseStrBody r2).map (fun p =>
                (Char.ofNat (((hexVal h1 * 16 + hexVal h2) * 16 + hexVal h3) * 16 + hexVal h4)
                  :: p.1, p.2))
            else none
          | _ => none
        else none
    else if c.toNat < 32 then none
    else (parseStrBody rest).map (fun p => (c :: p.1, p.2))

/-- Parse a maximal run of decimal digits as a natural number, rejecting a
redundant leading zero (per the JSON number grammar). -/
def parseNum (cs : List Char) : Option (Nat × List Char) :=
  match cs.takeWhile Char.isDigit with
  | [] => none
  | d :: ds =>
    if d = '0' && !ds.isEmpty then none
    else some (digitsToNat (d :: ds), cs.dropWhile Char.isDigit)

/-- Expect a literal character sequence, returning the rest of the input. -/
def expectLit : List Char → List Char → Option (List Char)
  | [], cs => some cs
  | l :: ls, c :: cs => if c = l then expectLit ls cs else none
  | _ :: _, [] => none

/-- `true` when the input starts with the given character. -/
def headIs (c : Char) : List Char → Bool
  | [] => false
  | d :: _ => d = c

/-- Parser mode: a single value, the tail of an array (elements up to and
including the closing `]`), or the tail of an object (members up to and
including the closing `}`). -/
inductive JTag where
  | val
  | elems
  | fields

/-- Parser result for each mode. -/
inductive JOut where
  | oval (v : Value) (rest : List Char)
  | oelems (vs : List Value) (rest : List Char)
  | ofields (fs : List (String × Value)) (rest : List Char)

/-- Recursive-descent JSON parser, modelling `JSON.parse` as consumed by
`Traverse.prototype.jsonLoad` on the value model (integral numbers;
whitespace handling omitted — the serializer never emits it).  The parser
is fuel-indexed so that the definition is structural; every recursive call
consumes at least one character first, so a fuel of
`2 * length + 1` always suffices (proved in the round-trip lemmas). -/
def parseJ : Nat → JTag → List Char → Option JOut
  | 0, _, _ => none
  | fuel + 1, .val, cs =>
    match cs with
    | [] => none
    | c :: rest =>
      if c = 'n' then (expectLit "ull".data rest).map (fun r => .oval .vnull r)
      else if c = 't' then (expectLit "rue".data rest).map (fun r => .oval (.vbool true) r)
      else if c = 'f' then (expectLit "alse".data rest).map (fun r => .oval (.vbool false) r)
      else if c = '"' then
        (parseStrBody rest).map (fun p => .oval (.vstr (String.mk p.1)) p.2)
      else if c = '[' then
        if headIs ']' rest then some (.oval (.varr []) rest.tail)
        else
          match parseJ fuel .elems rest with
          | some (.oelems vs r) => some (.oval (.varr vs) r)
          | _ => none
      else if c = '{' then
        if headIs '}' rest then some (.oval (.vobj []) rest.tail)
        else
          match parseJ fuel .fields rest with
          | some (.ofields fs r) => some (.oval (.vobj fs) r)
          | _ => none
      else if c = '-' then
        (parseNum rest).map (fun p => .oval (.vint (-(p.1 : Int))) p.2)
      else if c.isDigit then
        (parseNum (c :: rest)).map (fun p => .oval (.vint (p.1 : Int)) p.2)
      else none
  | fuel + 1, .elems, cs =>
    match parseJ fuel .val cs with
    | some (.oval v r1) =>
      match r1 with
      | ']' :: r2 => some (.oelems [v] r2)
      | ',' :: r2 =>
        match parseJ fuel .elems r2 with
        | some (.oelems vs r3) => some (.oelems (v :: vs) r3)
        | _ => none
      | _ => none
    | _ => none
  | fuel + 1, .fields, cs =>
    match cs with
    | '"' :: r0 =>
      match parseStrBody r0 with
      | some (kcs, r1) =>
        match r1 with
        | ':' :: r2 =>
          match parseJ fuel .val r2 with
          | some (.oval v r3) =>
            match r3 with
            | '}' :: r4 => some (.ofields [(String.mk kcs, v)] r4)
            | ',' :: r4 =>
              match parseJ fuel .fields r4 with
              | some (.ofields fs r5) => some (.ofields ((String.mk kcs, v) :: fs) r5)
              | _ => none
            | _ => none
          | _ => none
        | _ => none
      | none => none
    | _ => none

/-- `JSON.parse` on a whole string: a single value consuming all input. -/
def jsonParse (s : String) : Option Value :=
  match parseJ (2 * s.data.length + 1) .val s.data with
  | some (.oval v []) => some v
  | _ => none

/-- `Traverse.prototype.jsonLoad` (src/core/traverse.ts:392-416): compute
the `[JSON(Load)]` sub-path; a `null` inner yields a new node wrapping
`null`; otherwise the inner must be a string (`string()`), which is parsed
as JSON — a decode failure is a `ParseError`, success wraps the decoded
structure. -/
def jsonLoadOp (t : Traverse) : Except TErr Traverse :=
  let subPath := getSubPath t.path "[JSON(Load)]"
  if t.inner.isNullB then .ok ⟨.vnull, subPath⟩
  else
    match t.inner with
    | .vstr s =>
      match jsonParse s with
      | some v => .ok ⟨v, subPath⟩
      | none => .error .parseError
    | .vundefined => .error .hostError
    | _ => .error .typeError

/-- `true` when a list of object keys has no duplicates (a JavaScript
object cannot carry duplicate keys). -/
def keysDistinct : List String → Bool
  | [] => true
  | k :: ks => !ks.contains k && keysDistinct ks

mutual

/-- A value in the image of JSON: `null`, booleans, (integral) numbers,
strings, arrays and plain objects with distinct keys — no `undefined`, no
host objects, no maps or sets. -/
def jsonRepresentable : Value → Bool
  | .vnull => true
  | .vbool _ => true
  | .vint _ => true
  | .vstr _ => true
  | .varr xs => jsonRepresentableL xs
  | .vobj fs => keysDistinct (fs.map Prod.fst) && jsonRepresentableF fs
  | _ => false
/-- All array elements JSON-representable. -/
def jsonRepresentableL : List Value → Bool
  | [] => true
  | x :: xs => jsonRepresentable x && jsonRepresentableL xs
/-- All object member values JSON-representable. -/
def jsonRepresentableF : List (String × Value) → Bool
  | [] => true
  | (_, v) :: fs => jsonRepresentable v && jsonRepresentableF fs

end

/-- `true` when the list is empty or its head fails the predicate (used to
state that the serialized text of a number is followed by a non-digit). -/
def firstNot (p : Char → Bool) : List Char → Bool
  | [] => true
  | c :: _ => !p c

/-- Prefix a comma to a nonempty member/element tail. -/
def commaTail : List Char → List Char
  | [] => []
  | t => ',' :: t

/-- The C2 fixture callback: invoke the `delete` verb exactly when the
current element is an even integer, the `stop` verb exactly when it is
≤ 0 (result = (stop, delete)). -/
def c2cb : Value → Bool × Bool
  | .vint n => (decide (n ≤ 0), decide (n % 2 = 0))
  | _ => (false, false)

/-- The C2 fixture array `[-2, -1, 0, 1, 2, 3, 4, 5]`. -/
def c2arr : List Value :=
  [.vint (-2), .vint (-1), .vint 0, .vint 1, .vint 2, .vint 3, .vint 4, .vint 5]

/-! ### Decimal digit lemmas -/

theorem digitVal_digitChar : ∀ n, n < 10 → digitVal (digitChar n) = n := by decide

theorem digitChar_isDigit : ∀ n, n < 10 → (digitChar n).isDigit = true := by decide

theorem digitChar_ne_zero : ∀ n, n < 10 → 0 < n → digitChar n ≠ '0' := by decide

theorem ne_of_isDigit_of_not {c d : Char} (hc : c.isDigit = true)
    (hd : d.isDigit = false) : c ≠ d := by
  intro h
  rw [h, hd] at hc
  exact Bool.false_ne_true hc

theorem natDigitsAux_all_digit :
    ∀ fuel n, n < fuel → (natDigitsAux fuel n).all Char.isDigit = true := by
  intro fuel
  induction fuel with
  | zero => intro n h; omega
  | succ f ih =>
    intro n h
    by_cases h10 : n < 10
    · simp [natDigitsAux, h10, digitChar_isDigit n h10]
    · have hpos : 0 < n := by omega
      have hdiv : n / 10 < n := Nat.div_lt_self hpos (by omega)
      simp only [natDigitsAux, h10, if_false, List.all_append, List.all_cons,
        List.all_nil, Bool.and_eq_true, Bool.and_true]
      exact ⟨ih (n / 10) (by omega), digitChar_isDigit (n % 10) (Nat.mod_lt n (by omega))⟩

theorem natDigitsAux_ne_nil : ∀ fuel n, n < fuel → natDigitsAux fuel n ≠ [] := by
  intro fuel
  cases fuel with
  | zero => intro n h; omega
  | succ f =>
    intro n _
    by_cases h10 : n < 10 <;> simp [natDigitsAux, h10]

theorem natDigitsAux_head_ne_zero :
    ∀ fuel n, n < fuel → 0 < n → ∀ c cs, natDigitsAux fuel n = c :: cs → c ≠ '0' := by
  intro fuel
  induction fuel with
  | zero => intro n h; omega
  | succ f ih =>
    intro n h hpos c cs heq
    by_cases h10 : n < 10
    · simp [natDigitsAux, h10] at heq
      rw [← heq.1]
      exact digitChar_ne_zero n h10 hpos
    · have hdiv : n / 10 < n := Nat.div_lt_self (by omega) (by omega)
      have hdpos : 0 < n / 10 := Nat.div_pos (by omega) (by omega)
      simp only [natDigitsAux, h10, if_false] at heq
      obtain ⟨d, ds, hds⟩ : ∃ d ds, natDigitsAux f (n / 10) = d :: ds := by
        cases hh : natDigitsAux f (n / 10) with
        | nil => exact absurd hh (natDigitsAux_ne_nil f (n / 10) (by omega))
        | cons d ds => exact ⟨d, ds, rfl⟩
      rw [hds] at heq
      simp at heq
      rw [← heq.1]
      exact ih (n / 10) (by omega) hdpos d ds hds

theorem digitsToNat_append_last (ds : List Char) (c : Char) :
    digitsToNat (ds ++ [c]) = 10 * digitsToNat ds + digitVal c := by
  simp [digitsToNat, List.foldl_append]

theorem digitsToNat_natDigitsAux :
    ∀ fuel n, n < fuel → digitsToNat (natDigitsAux fuel n) = n := by
  intro fuel
  induction fuel with
  | zero => intro n h; omega
  | succ f ih =>
    intro n h
    by_cases h10 : n < 10
    · simp [natDigitsAux, h10, digitsToNat, digitVal_digitChar n h10]
    · have hdiv : n / 10 < n := Nat.div_lt_self (by omega) (by omega)
      simp only [natDigitsAux, h10, if_false]
      rw [digitsToNat_append_last, ih (n / 10) (by omega),
        digitVal_digitChar (n % 10) (Nat.mod_lt n (by omega))]
      omega

theorem natChars_all_digit (n : Nat) : (natChars n).all Char.isDigit = true :=
  natDigitsAux_all_digit (n + 1) n (by omega)

theorem natChars_ne_nil (n : Nat) : natChars n ≠ [] :=
  natDigitsAux_ne_nil (n + 1) n (by omega)

theorem digitsToNat_natChars (n : Nat) : digitsToNat (natChars n) = n :=
  digitsToNat_natDigitsAux (n + 1) n (by omega)

theorem natChars_head_ne_zero (n : Nat) (hpos : 0 < n) :
    ∀ c cs, natChars n = c :: cs → c ≠ '0' :=
  natDigitsAux_head_ne_zero (n + 1) n (by omega) hpos

/-! ### takeWhile / dropWhile over a digit run -/

theorem takeWhile_append_firstNot (p : Char → Bool) :
    ∀ a b : List Char, a.all p = true → firstNot p b = true →
      (a ++ b).takeWhile p = a ∧ (a ++ b).dropWhile p = b := by
  intro a
  induction a with
  | nil =>
    intro b _ hb
    cases b with
    | nil => simp
    | cons c cs =>
      simp only [firstNot, Bool.not_eq_true'] at hb
      simp [List.takeWhile_cons, List.dropWhile_cons, hb]
  | cons x a ih =>
    intro b hall hb
    simp only [List.all_cons, Bool.and_eq_true] at hall
    have := ih b hall.2 hb
    simp [List.takeWhile_cons, List.dropWhile_cons, hall.1, this.1, this.2]

theorem parseNum_natChars (n : Nat) (rest : List Char)
    (hrest : firstNot Char.isDigit rest = true) :
    parseNum (natChars n ++ rest) = some (n, rest) := by
  have htd := takeWhile_append_firstNot Char.isDigit (natChars n) rest
    (natChars_all_digit n) hrest
  obtain ⟨d, ds, hds⟩ : ∃ d ds, natChars n = d :: ds := by
    cases hh : natChars n with
    | nil => exact absurd hh (natChars_ne_nil n)
    | cons d ds => exact ⟨d, ds, rfl⟩
  have hguard : (d = '0' && !ds.isEmpty) = false := by
    rcases Nat.eq_zero_or_pos n with hz | hpos
    · subst hz
      have : natChars 0 = ['0'] := rfl
      rw [this] at hds
      cases hds
      simp
    · have := natChars_head_ne_zero n hpos d ds hds
      simp [this]
  rw [parseNum, htd.1, htd.2, hds]
  simp only [hguard]
  simp only [Bool.false_eq_true, if_false]
  rw [← hds, digitsToNat_natChars n]

/-! ### Literal and string-body parsing -/

theorem expectLit_append_self :
    ∀ lit rest : List Char, expectLit lit (lit ++ rest) = some rest := by
  intro lit
  induction lit with
  | nil => intro rest; rfl
  | cons l ls ih => intro rest; simp [expectLit, ih]

theorem isHexDigit_hexDigitChar : ∀ n, n < 16 → isHexDigit (hexDigitChar n) = true := by
  decide

theorem hexVal_hexDigitChar : ∀ n, n < 16 → hexVal (hexDigitChar n) = n := by decide

theorem parseStrBody_escape :
    ∀ l rest : List Char, parseStrBody (escapeList l ++ '"' :: rest) = some (l, rest) := by
  intro l
  induction l with
  | nil =>
    intro rest
    show parseStrBody ('"' :: rest) = _
    rw [parseStrBody.eq_def]
    simp
  | cons c cs ih =>
    intro rest
    show parseStrBody ((escapeChar c ++ escapeList cs) ++ '"' :: rest) = _
    rw [List.append_assoc]
    by_cases hq : c = '"'
    · subst hq
      show parseStrBody ('\\' :: '"' :: (escapeList cs ++ '"' :: rest)) = _
      rw [parseStrBody.eq_def]
      simp [ih]
    · by_cases hbs : c = '\\'
      · subst hbs
        show parseStrBody ('\\' :: '\\' :: (escapeList cs ++ '"' :: rest)) = _
        rw [parseStrBody.eq_def]
        simp [ih]
      · by_cases hctl : c.toNat < 32
        · by_cases h8 : c = '\x08'
          · subst h8
            show parseStrBody ('\\' :: 'b' :: (escapeList cs ++ '"' :: rest)) = _
            rw [parseStrBody.eq_def]
            simp [ih]
          · by_cases h9 : c = '\x09'
            · subst h9
              show parseStrBody ('\\' :: 't' :: (escapeList cs ++ '"' :: rest)) = _
              rw [parseStrBody.eq_def]
              simp [ih]
            · by_cases hA : c = '\x0a'
              · subst hA
                show parseStrBody ('\\' :: 'n' :: (escapeList cs ++ '"' :: rest)) = _
                rw [parseStrBody.eq_def]
                simp [ih]
              · by_cases hC : c = '\x0c'
                · subst hC
                  show parseStrBody ('\\' :: 'f' :: (escapeList cs ++ '"' :: rest)) = _
                  rw [parseStrBody.eq_def]
                  simp [ih]
                · by_cases hD : c = '\x0d'
                  · subst hD
                    show parseStrBody ('\\' :: 'r' :: (escapeList cs ++ '"' :: rest)) = _
                    rw [parseStrBody.eq_def]
                    simp [ih]
                  · have hesc : escapeChar c =
                        ['\\', 'u', '0', '0', hexDigitChar (c.toNat / 16),
                          hexDigitChar (c.toNat % 16)] := by
                      simp [escapeChar, hq, hbs, hctl, h8, h9, hA, hC, hD]
                    rw [hesc]
                    have hdivlt : c.toNat / 16 < 16 := by omega
                    have hmodlt : c.toNat % 16 < 16 := by omega
                    have hval :
                        ((hexVal '0' * 16 + hexVal '0') * 16 +
                            hexVal (hexDigitChar (c.toNat / 16))) * 16 +
                          hexVal (hexDigitChar (c.toNat % 16)) = c.toNat := by
                      rw [hexVal_hexDigitChar _ hdivlt, hexVal_hexDigitChar _ hmodlt]
                      have h0 : hexVal '0' = 0 := by decide
                      rw [h0]
                      omega
                    show parseStrBody ('\\' :: 'u' :: '0' :: '0' ::
                        hexDigitChar (c.toNat / 16) :: hexDigitChar (c.toNat % 16) ::
                        (escapeList cs ++ '"' :: rest)) = _
                    rw [parseStrBody.eq_def]
                    simp [ih, isHexDigit_hexDigitChar _ hdivlt,
                      isHexDigit_hexDigitChar _ hmodlt, hval, Char.ofNat_toNat,
                      (by decide : isHexDigit '0' = true)]
        · have hesc : escapeChar c = [c] := by simp [escapeChar, hq, hbs, hctl]
          rw [hesc]
          show parseStrBody (c :: (escapeList cs ++ '"' :: rest)) = _
          rw [parseStrBody.eq_def]
          simp [ih, hq, hbs, hctl]

/-! ### Serializer shape lemmas -/

theorem serializeV_ne_nil : ∀ v : Value, serializeV v ≠ [] := by
  intro v
  cases v with
  | vbool b => cases b <;> simp [serializeV]
  | vint n =>
    simp only [serializeV, intChars]
    by_cases hn : n < 0
    · simp [hn]
    · simp [hn, natChars_ne_nil]
  | vstr s => simp [serializeV, serializeStringChars]
  | _ => simp [serializeV]

theorem headIs_serializeV_append (v : Value) (tail : List Char) :
    headIs ']' (serializeV v ++ tail) = false ∧
      headIs '}' (serializeV v ++ tail) = false := by
  cases v with
  | vbool b => cases b <;> simp [serializeV, headIs]
  | vint n =>
    simp only [serializeV, intChars]
    by_cases hn : n < 0
    · simp [hn, headIs]
    · simp only [hn, if_false]
      obtain ⟨d, ds, hds⟩ : ∃ d ds, natChars n.toNat = d :: ds := by
        cases hh : natChars n.toNat with
        | nil => exact absurd hh (natChars_ne_nil n.toNat)
        | cons d ds => exact ⟨d, ds, rfl⟩
      have hdig : d.isDigit = true := by
        have := natChars_all_digit n.toNat
        rw [hds] at this
        simp only [List.all_cons, Bool.and_eq_true] at this
        exact this.1
      rw [hds]
      constructor
      · simp only [List.cons_append, headIs]
        simp [ne_of_isDigit_of_not hdig (by decide : (']' : Char).isDigit = false)]
      · simp only [List.cons_append, headIs]
        simp [ne_of_isDigit_of_not hdig (by decide : ('}' : Char).isDigit = false)]
  | vstr s => simp [serializeV, serializeStringChars, headIs]
  | _ => simp [serializeV, headIs]

theorem serializeElems_cons_shape (x : Value) (xs : List Value) :
    ∃ t, serializeElems (x :: xs) = serializeV x ++ t := by
  cases xs with
  | nil => exact ⟨[], by simp [serializeElems]⟩
  | cons y ys => exact ⟨',' :: serializeElems (y :: ys), by simp [serializeElems]⟩

theorem jsonRepresentable_not_undefLike {v : Value}
    (h : jsonRepresentable v = true) : isUndefLike v = false := by
  cases v <;> simp_all [jsonRepresentable, isUndefLike]

theorem serializeFields_cons_eq (k : String) (v : Value) (fs : List (String × Value))
    (h : isUndefLike v = false) :
    serializeFields ((k, v) :: fs) =
      serializeStringChars k ++ ':' :: serializeV v ++ commaTail (serializeFields fs) := by
  cases hsf : serializeFields fs with
  | nil => simp [serializeFields, h, hsf, commaTail]
  | cons a t => simp [serializeFields, h, hsf, commaTail]

theorem serializeFields_cons_ne_nil (k : String) (v : Value) (fs : List (String × Value))
    (h : isUndefLike v = false) : serializeFields ((k, v) :: fs) ≠ [] := by
  rw [serializeFields_cons_eq k v fs h]
  simp [serializeStringChars]

theorem commaTail_eq_cons {t : List Char} (h : t ≠ []) : commaTail t = ',' :: t := by
  cases t with
  | nil => exact absurd rfl h
  | cons a t => rfl

/-! ### One-step unfolding lemmas for the parser -/

theorem parseJ_val_quote (fuel : Nat) (rest : List Char) :
    parseJ (fuel + 1) .val ('"' :: rest) =
      (parseStrBody rest).map (fun p => .oval (.vstr (String.mk p.1)) p.2) := rfl

theorem parseJ_val_lbrack (fuel : Nat) (rest : List Char) :
    parseJ (fuel + 1) .val ('[' :: rest) =
      (if headIs ']' rest then some (.oval (.varr []) rest.tail)
       else
        match parseJ fuel .elems rest with
        | some (.oelems vs r) => some (.oval (.varr vs) r)
        | _ => none) := rfl

theorem parseJ_val_lbrace (fuel : Nat) (rest : List Char) :
    parseJ (fuel + 1) .val ('{' :: rest) =
      (if headIs '}' rest then some (.oval (.vobj []) rest.tail)
       else
        match parseJ fuel .fields rest with
        | some (.ofields fs r) => some (.oval (.vobj fs) r)
        | _ => none) := rfl

theorem parseJ_val_minus (fuel : Nat) (rest : List Char) :
    parseJ (fuel + 1) .val ('-' :: rest) =
      (parseNum rest).map (fun p => .oval (.vint (-(p.1 : Int))) p.2) := rfl

theorem parseJ_val_digit (fuel : Nat) (c : Char) (rest : List Char)
    (h : c.isDigit = true) :
    parseJ (fuel + 1) .val (c :: rest) =
      (parseNum (c :: rest)).map (fun p => .oval (.vint (p.1 : Int)) p.2) := by
  have h1 := ne_of_isDigit_of_not h (by decide : ('n' : Char).isDigit = false)
  have h2 := ne_of_isDigit_of_not h (by decide : ('t' : Char).isDigit = false)
  have h3 := ne_of_isDigit_of_not h (by decide : ('f' : Char).isDigit = false)
  have h4 := ne_of_isDigit_of_not h (by decide : ('"' : Char).isDigit = false)
  have h5 := ne_of_isDigit_of_not h (by decide : ('[' : Char).isDigit = false)
  have h6 := ne_of_isDigit_of_not h (by decide : ('{' : Char).isDigit = false)
  have h7 := ne_of_isDigit_of_not h (by decide : ('-' : Char).isDigit = false)
  rw [parseJ.eq_def]
  simp [h1, h2, h3, h4, h5, h6, h7, h]

theorem parseJ_elems_succ (fuel : Nat) (cs : List Char) :
    parseJ (fuel + 1) .elems cs =
      (match parseJ fuel .val cs with
       | some (.oval v r1) =>
         match r1 with
         | ']' :: r2 => some (.oelems [v] r2)
         | ',' :: r2 =>
           match parseJ fuel .elems r2 with
           | some (.oelems vs r3) => some (.oelems (v :: vs) r3)
           | _ => none
         | _ => none
       | _ => none) := rfl

theorem parseJ_fields_succ (fuel : Nat) (r0 : List Char) :
    parseJ (fuel + 1) .fields ('"' :: r0) =
      (match parseStrBody r0 with
       | some (kcs, r1) =>
         match r1 with
         | ':' :: r2 =>
           match parseJ fuel .val r2 with
           | some (.oval v r3) =>
             match r3 with
             | '}' :: r4 => some (.ofields [(String.mk kcs, v)] r4)
             | ',' :: r4 =>
               match parseJ fuel .fields r4 with
               | some (.ofields fs r5) => some (.ofields ((String.mk kcs, v) :: fs) r5)
               | _ => none
             | _ => none
           | _ => none
         | _ => none
       | none => none) := rfl

/-! ### The JSON round trip -/

theorem parseJ_serialize : ∀ fuel : Nat,
    (∀ v rest, jsonRepresentable v = true → firstNot Char.isDigit rest = true →
      2 * (serializeV v).length + 2 * rest.length + 1 ≤ fuel →
        parseJ fuel .val (serializeV v ++ rest) = some (.oval v rest)) ∧
    (∀ xs rest, xs ≠ [] → jsonRepresentableL xs = true →
      2 * (serializeElems xs).length + 2 * rest.length + 4 ≤ fuel →
        parseJ fuel .elems (serializeElems xs ++ ']' :: rest) = some (.oelems xs rest)) ∧
    (∀ fs rest, fs ≠ [] → jsonRepresentableF fs = true →
      2 * (serializeFields fs).length + 2 * rest.length + 4 ≤ fuel →
        parseJ fuel .fields (serializeFields fs ++ '}' :: rest) = some (.ofields fs rest)) := by
  intro fuel
  induction fuel with
  | zero =>
    refine ⟨?_, ?_, ?_⟩ <;> (intro a b h1 h2 h3; exact absurd h3 (by omega)) 
  | succ fuel ih =>
    obtain ⟨ihV, ihE, ihF⟩ := ih
    refine ⟨?_, ?_, ?_⟩
    · intro v rest hrepr hnd hfuel
      cases v with
      | vnull => rfl
      | vundefined => simp [jsonRepresentable] at hrepr
      | vnative tag => simp [jsonRepresentable] at hrepr
      | vmap entries => simp [jsonRepresentable] at hrepr
      | vset xs => simp [jsonRepresentable] at hrepr
      | vbool b => cases b <;> rfl
      | vint n =>
        have hser : serializeV (.vint n) = intChars n := rfl
        rw [hser]
        by_cases hn : n < 0
        · have h2 : intChars n = '-' :: natChars n.natAbs := by
            simp only [intChars]; rw [if_pos hn]
          rw [h2, List.cons_append, parseJ_val_minus,
            parseNum_natChars n.natAbs rest hnd]
          simp only [Option.map_some']
          have h3 : -((n.natAbs : Nat) : Int) = n := by omega
          rw [h3]
        · have h2 : intChars n = natChars n.toNat := by
            simp only [intChars]; rw [if_neg hn]
          obtain ⟨d, ds, hds⟩ : ∃ d ds, natChars n.toNat = d :: ds := by
            cases hh : natChars n.toNat with
            | nil => exact absurd hh (natChars_ne_nil n.toNat)
            | cons d ds => exact ⟨d, ds, rfl⟩
          have hdig : d.isDigit = true := by
            have ha := natChars_all_digit n.toNat
            rw [hds] at ha
            simp only [List.all_cons, Bool.and_eq_true] at ha
            exact ha.1
          rw [h2, hds, List.cons_append, parseJ_val_digit fuel d _ hdig,
            ← List.cons_append, ← hds, parseNum_natChars n.toNat rest hnd]
          simp only [Option.map_some']
          have h3 : ((n.toNat : Nat) : Int) = n := Int.toNat_of_nonneg (by omega)
          rw [h3]
      | vstr s =>
        have h2 : serializeV (.vstr s) ++ rest = '"' :: (escapeList s.data ++ '"' :: rest) := by
          show serializeStringChars s ++ rest = _
          simp [serializeStringChars]
        rw [h2, parseJ_val_quote, parseStrBody_escape s.data rest]
        rfl
      | varr xs =>
        cases xs with
        | nil => rfl
        | cons x xs2 =>
          have hrepr2 : jsonRepresentableL (x :: xs2) = true := by
            simpa [jsonRepresentable] using hrepr
          have hlen : (serializeV (.varr (x :: xs2))).length =
              (serializeElems (x :: xs2)).length + 2 := by
            show ('[' :: serializeElems (x :: xs2) ++ [']']).length = _
            simp
          obtain ⟨t, ht⟩ := serializeElems_cons_shape x xs2
          have hhead : headIs ']' (serializeElems (x :: xs2) ++ ']' :: rest) = false := by
            rw [ht, List.append_assoc]
            exact (headIs_serializeV_append x _).1
          have hstep : serializeV (.varr (x :: xs2)) ++ rest =
              '[' :: (serializeElems (x :: xs2) ++ ']' :: rest) := by
            show ('[' :: serializeElems (x :: xs2) ++ [']']) ++ rest = _
            simp
          rw [hstep, parseJ_val_lbrack, hhead]
          simp only [Bool.false_eq_true, if_false]
          rw [ihE (x :: xs2) rest (by simp) hrepr2 (by rw [hlen] at hfuel; omega)]
      | vobj fs =>
        cases fs with
        | nil => rfl
        | cons f fs2 =>
          obtain ⟨k, v⟩ := f
          have hre : jsonRepresentableF ((k, v) :: fs2) = true := by
            simp only [jsonRepresentable, Bool.and_eq_true] at hrepr
            exact hrepr.2
          have hv : jsonRepresentable v = true := by
            simp only [jsonRepresentableF, Bool.and_eq_true] at hre
            exact hre.1
          have hU : isUndefLike v = false := jsonRepresentable_not_undefLike hv
          have hhead : headIs '}' (serializeFields ((k, v) :: fs2) ++ '}' :: rest) = false := by
            rw [serializeFields_cons_eq k v fs2 hU]
            simp [serializeStringChars, headIs]
          have hlen : (serializeV (.vobj ((k, v) :: fs2))).length =
              (serializeFields ((k, v) :: fs2)).length + 2 := by
            show ('{' :: serializeFields ((k, v) :: fs2) ++ ['}']).length = _
            simp
          have hstep : serializeV (.vobj ((k, v) :: fs2)) ++ rest =
              '{' :: (serializeFields ((k, v) :: fs2) ++ '}' :: rest) := by
            show ('{' :: serializeFields ((k, v) :: fs2) ++ ['}']) ++ rest = _
            simp
          rw [hstep, parseJ_val_lbrace, hhead]
          simp only [Bool.false_eq_true, if_false]
          rw [ihF ((k, v) :: fs2) rest (by simp) hre (by rw [hlen] at hfuel; omega)]
    · intro xs rest hne hrepr hfuel
      cases xs with
      | nil => exact absurd rfl hne
      | cons x xs2 =>
        have hx : jsonRepresentable x = true := by
          simp only [jsonRepresentableL, Bool.and_eq_true] at hrepr
          exact hrepr.1
        have hxs2 : jsonRepresentableL xs2 = true := by
          simp only [jsonRepresentableL, Bool.and_eq_true] at hrepr
          exact hrepr.2
        have hsx : 0 < (serializeV x).length := List.length_pos.mpr (serializeV_ne_nil x)
        cases xs2 with
        | nil =>
          have h1 : serializeElems [x] = serializeV x := rfl
          rw [h1] at hfuel ⊢
          rw [parseJ_elems_succ,
            ihV x (']' :: rest) hx (by rfl)
              (by simp only [List.length_cons]; omega)]
          rfl
        | cons y ys =>
          have h1 : serializeElems (x :: y :: ys) =
              serializeV x ++ ',' :: serializeElems (y :: ys) := rfl
          rw [h1] at hfuel ⊢
          rw [List.append_assoc, List.cons_append]
          simp only [List.length_append, List.length_cons] at hfuel
          rw [parseJ_elems_succ,
            ihV x (',' :: (serializeElems (y :: ys) ++ ']' :: rest)) hx (by rfl)
              (by simp only [List.length_cons, List.length_append]; omega)]
          show (match parseJ fuel JTag.elems (serializeElems (y :: ys) ++ ']' :: rest) with
                | some (JOut.oelems vs r3) => some (JOut.oelems (x :: vs) r3)
                | _ => none) = some (JOut.oelems (x :: y :: ys) rest)
          rw [ihE (y :: ys) rest (by simp) hxs2 (by omega)]
    · intro fs rest hne hrepr hfuel
      cases fs with
      | nil => exact absurd rfl hne
      | cons f fs2 =>
        obtain ⟨k, v⟩ := f
        have hv : jsonRepresentable v = true := by
          simp only [jsonRepresentableF, Bool.and_eq_true] at hrepr
          exact hrepr.1
        have hfs2 : jsonRepresentableF fs2 = true := by
          simp only [jsonRepresentableF, Bool.and_eq_true] at hrepr
          exact hrepr.2
        have hU : isUndefLike v = false := jsonRepresentable_not_undefLike hv
        have hsv : 0 < (serializeV v).length := List.length_pos.mpr (serializeV_ne_nil v)
        rw [serializeFields_cons_eq k v fs2 hU] at hfuel ⊢
        have hSK : serializeStringChars k = '"' :: (escapeList k.data ++ ['"']) := rfl
        rw [hSK] at hfuel ⊢
        simp only [List.length_append, List.length_cons] at hfuel
        simp only [List.cons_append, List.append_assoc, List.singleton_append]
        rw [parseJ_fields_succ, parseStrBody_escape k.data _]
        cases fs2 with
        | nil =>
          have hct : commaTail (serializeFields ([] : List (String × Value))) = [] := rfl
          rw [hct] at hfuel ⊢
          simp only [List.nil_append, List.length_nil] at hfuel ⊢
          show (match parseJ fuel JTag.val (serializeV v ++ '}' :: rest) with
                | some (JOut.oval v2 r3) =>
                  match r3 with
                  | '}' :: r4 => some (JOut.ofields [(String.mk k.data, v2)] r4)
                  | ',' :: r4 =>
                    match parseJ fuel JTag.fields r4 with
                    | some (JOut.ofields fs r5) => some (JOut.ofields ((String.mk k.data, v2) :: fs) r5)
                    | _ => none
                  | _ => none
                | _ => none) = some (JOut.ofields [(k, v)] rest)
          rw [ihV v ('}' :: rest) hv (by rfl)
            (by simp only [List.length_cons]; omega)]
          rfl
        | cons g gs =>
          obtain ⟨k2, v2⟩ := g
          have hv2 : jsonRepresentable v2 = true := by
            simp only [jsonRepresentableF, Bool.and_eq_true] at hfs2
            exact hfs2.1
          have hU2 : isUndefLike v2 = false := jsonRepresentable_not_undefLike hv2
          have hNN : serializeFields ((k2, v2) :: gs) ≠ [] :=
            serializeFields_cons_ne_nil k2 v2 gs hU2
          rw [commaTail_eq_cons hNN] at hfuel ⊢
          simp only [List.length_cons] at hfuel
          simp only [List.cons_append]
          show (match parseJ fuel JTag.val
                    (serializeV v ++ ',' :: (serializeFields ((k2, v2) :: gs) ++ '}' :: rest)) with
                | some (JOut.oval v3 r3) =>
                  match r3 with
                  | '}' :: r4 => some (JOut.ofields [(String.mk k.data, v3)] r4)
                  | ',' :: r4 =>
                    match parseJ fuel JTag.fields r4 with
                    | some (JOut.ofields fs r5) => some (JOut.ofields ((String.mk k.data, v3) :: fs) r5)
                    | _ => none
                  | _ => none
                | _ => none) = some (JOut.ofields ((k, v) :: (k2, v2) :: gs) rest)
          rw [ihV v (',' :: (serializeFields ((k2, v2) :: gs) ++ '}' :: rest)) hv (by rfl)
            (by simp only [List.length_cons, List.length_append]; omega)]
          show (match parseJ fuel JTag.fields (serializeFields ((k2, v2) :: gs) ++ '}' :: rest) with
                | some (JOut.ofields fs r5) => some (JOut.ofields ((String.mk k.data, v) :: fs) r5)
                | _ => none) = some (JOut.ofields ((k, v) :: (k2, v2) :: gs) rest)
          rw [ihF ((k2, v2) :: gs) rest (by simp) hfs2 (by omega)]

theorem jsonParse_serializeV (v : Value) (h : jsonRepresentable v = true) :
    jsonParse (String.mk (serializeV v)) = some v := by
  have hm := (parseJ_serialize (2 * (serializeV v).length + 1)).1 v [] h rfl (by simp)
  rw [List.append_nil] at hm
  show (match parseJ (2 * (serializeV v).length + 1) JTag.val (serializeV v) with
        | some (JOut.oval w []) => some w
        | _ => none) = some v
  rw [hm]

theorem stringifyTop_of_repr (v : Value) (h : jsonRepresentable v = true) :
    stringifyTop v = some (String.mk (serializeV v)) := by
  cases v <;> first
    | rfl
    | simp [jsonRepresentable] at h

/-- C3: for every JSON-representable structure `v` (no cycles can exist on
inductive values), `wrap(v).jsonSave().jsonLoad().unwrap()` recovers `v`
exactly (deep equality is structural equality of `Value`). -/
theorem c3_jsonSave_jsonLoad_roundtrip :
    ∀ v : Value, jsonRepresentable v = true →
      ((jsonSaveOp (wrapObject v)).bind jsonLoadOp).map unwrapOp = .ok v := by
  intro v h
  have hs : stringifyTop (wrapObject v).inner = some (String.mk (serializeV v)) :=
    stringifyTop_of_repr v h
  have hp := jsonParse_serializeV v h
  simp only [jsonSaveOp, hs]
  show (jsonLoadOp ⟨.vstr (String.mk (serializeV v)),
      getSubPath (wrapObject v).path "[JSON(Save)]"⟩).map unwrapOp = .ok v
  simp only [jsonLoadOp, Value.isNullB, hp]
  rfl

/-- C3 witness: the round trip evaluated at a concrete representable
structure. -/
theorem c3_witness :
    jsonRepresentable (.vobj [("a", .varr [.vint 1, .vnull]), ("b", .vint (-7))]) = true ∧
      ((jsonSaveOp (wrapObject (.vobj [("a", .varr [.vint 1, .vnull]), ("b", .vint (-7))]))).bind
          jsonLoadOp).map unwrapOp =
        .ok (.vobj [("a", .varr [.vint 1, .vnull]), ("b", .vint (-7))]) :=
  ⟨rfl, c3_jsonSave_jsonLoad_roundtrip _ rfl⟩

/-- C1 counterexample: the claim "oneOf over an empty plain mapping always
throws KeyNotFoundError for any non-null value" fails on the code: for the
non-null wrapped value `"toString"`, the `in` operator sees the property
inherited from `Object.prototype`, so `oneOf({})` succeeds and returns
self — no error at all. -/
theorem c1_counterexample :
    oneOfOp ⟨.vstr "toString", "/"⟩ (.vobj []) = .ok ⟨.vstr "toString", "/"⟩ ∧
      errOf (oneOfOp ⟨.vstr "toString", "/"⟩ (.vobj [])) = none := ⟨rfl, rfl⟩

/-- C1 (amended): `oneOf` with an empty plain object as the selections
throws KeyNotFoundError for every non-null wrapped value whose property-key
string is not an inherited property of plain objects; for a value whose key
string is inherited from `Object.prototype` (such as `"toString"`) it
succeeds and returns self. -/
theorem c1_amended :
    (∀ (v : Value) (p : String), v.isNullB = false →
      objectProtoProps.contains (jsToString v) = false →
        oneOfOp ⟨v, p⟩ (.vobj []) = .error .keyNotFound) ∧
    (∀ p : String, oneOfOp ⟨.vstr "toString", p⟩ (.vobj []) = .ok ⟨.vstr "toString", p⟩) := by
  constructor
  · intro v p hnull hcont
    simp only [oneOfOp, hnull, Bool.false_eq_true, if_false]
    simp [jsHasProp, hcont]
    simpa using hcont
  · intro p
    rfl

/-- C1 witness: the amended theorem applied at the non-null value `5`
(key string `"5"`, not an inherited property name). -/
theorem c1_amended_witness :
    (Value.vint 5).isNullB = false ∧
      objectProtoProps.contains (jsToString (.vint 5)) = false ∧
      oneOfOp ⟨.vint 5, "/"⟩ (.vobj []) = .error .keyNotFound :=
  ⟨rfl, rfl, c1_amended.1 (.vint 5) "/" rfl rfl⟩

/-- C2: `arrayForEach` in reverse over `[-2,-1,0,1,2,3,4,5]`, deleting even
elements and stopping at elements ≤ 0, leaves exactly `[-2,-1,1,3,5]`; and
when the delete and stop verbs are both invoked in the same callback call
(the singleton `[0]`), the deletion is applied before the stop is honoured,
leaving `[]`. -/
theorem c2_arrayForEach_reverse_fixture :
    arrayForEachOp ⟨.varr c2arr, "/"⟩ c2cb true =
        .ok ⟨.varr [.vint (-2), .vint (-1), .vint 1, .vint 3, .vint 5], "/"⟩ ∧
      arrayForEachOp ⟨.varr [.vint 0], "/"⟩ c2cb true = .ok ⟨.varr [], "/"⟩ := ⟨rfl, rfl⟩

/-- C5 counterexample: the claim "customRule on a null node is a no-op that
succeeds and returns self" fails on the code: `customRule` invokes the
predicate with the null sentinel, and a predicate returning `false` makes
the call raise the generic base `Error`. -/
theorem c5_counterexample :
    customRuleOp ⟨.vnull, "/"⟩ (fun _ => .vbool false) = .error .baseError := rfl

/-- C5 (amended): `customRule` has no null shortcut: on a node wrapping the
null sentinel the predicate is invoked with `null` and the outcome follows
the predicate's verdict — self on `true`, the generic base `Error` on
`false`. -/
theorem c5_amended : ∀ (p : String) (b : Bool),
    customRuleOp ⟨.vnull, p⟩ (fun _ => .vbool b) =
      (if b then .ok ⟨.vnull, p⟩ else .error .baseError) := by
  intro p b
  cases b <;> rfl

/-- C10: only the literal `null` is the null sentinel.  A node wrapping
`undefined` reports `isNull() = false`, passes `notNull()` returning self,
and the null-vacuous assertions run their checks on it instead of skipping
them: `min(0)` raises ParameterError (kind mismatch), `oneOf({})` raises
KeyNotFoundError, `stringValidate` crashes in the host type check — while
each is a silent no-op on a node wrapping `null`. -/
theorem c10_undefined_is_not_null_sentinel :
    isNullOp ⟨.vundefined, "/"⟩ = false ∧
    notNullOp ⟨.vundefined, "/"⟩ = .ok ⟨.vundefined, "/"⟩ ∧
    errOf (minOp ⟨.vundefined, "/"⟩ (.vint 0)) = some TErr.paramError ∧
    minOp ⟨.vnull, "/"⟩ (.vint 0) = .ok ⟨.vnull, "/"⟩ ∧
    errOf (oneOfOp ⟨.vundefined, "/"⟩ (.vobj [])) = some TErr.keyNotFound ∧
    oneOfOp ⟨.vnull, "/"⟩ (.vobj []) = .ok ⟨.vnull, "/"⟩ ∧
    errOf (stringValidateOp ⟨.vundefined, "/"⟩ "abc") = some TErr.hostError ∧
    stringValidateOp ⟨.vnull, "/"⟩ "abc" = .ok ⟨.vnull, "/"⟩ :=
  ⟨rfl, rfl, rfl, rfl, rfl, rfl, rfl, rfl⟩

/-- C4 counterexample: the claim's bounds fail on the code in two places:
at `offset = length` on a non-null array (claim: store; code:
IndexOutOfRangeError, since the code rejects `offset >= length`), and at a
negative offset on a null node (claim: no-op; code: IndexOutOfRangeError,
since the negative check runs before the null shortcut). -/
theorem c4_counterexample :
    errOf (arraySetItemOp ⟨.varr [.vint 9], "/"⟩ (.vint 1) (.vint 7)) =
        some TErr.indexOutOfRange ∧
      errOf (arraySetItemOp ⟨.vnull, "/"⟩ (.vint (-1)) (.vint 7)) =
        some TErr.indexOutOfRange := ⟨rfl, rfl⟩

/-- C4 (amended): `arraySetItem` raises ParameterError on a non-integer
offset; an integer offset below zero raises IndexOutOfRangeError even on a
null node; a null node with a non-negative integer offset is a no-op
returning self; on a non-null array it raises IndexOutOfRangeError exactly
when the offset is negative or ≥ the length, and otherwise stores the
value in place at the offset and returns self. -/
theorem c4_amended : ∀ (p : String) (arr : List Value) (i : Int) (value : Value),
    (arraySetItemOp ⟨.vnull, p⟩ (.vint i) value =
      (if i < 0 then .error .indexOutOfRange else .ok ⟨.vnull, p⟩)) ∧
    (errOf (arraySetItemOp ⟨.varr arr, p⟩ (.vint i) value) = some TErr.indexOutOfRange ↔
      (i < 0 ∨ (arr.length : Int) ≤ i)) ∧
    (0 ≤ i → i < (arr.length : Int) →
      arraySetItemOp ⟨.varr arr, p⟩ (.vint i) value = .ok ⟨.varr (arr.set i.toNat value), p⟩) ∧
    (∀ s : String, errOf (arraySetItemOp ⟨.varr arr, p⟩ (.vstr s) value) =
      some TErr.paramError) := by
  intro p arr i value
  refine ⟨rfl, ?_, ?_, fun s => rfl⟩
  · by_cases h0 : i < 0
    · simp [arraySetItemOp, h0, errOf]
    · by_cases h1 : (arr.length : Int) ≤ i
      · simp [arraySetItemOp, h0, h1, errOf, Value.isNullB]
      · simp [arraySetItemOp, h0, h1, errOf, Value.isNullB]
  · intro hge hlt
    simp [arraySetItemOp, Value.isNullB, show ¬(i < 0) by omega,
      show ¬((arr.length : Int) ≤ i) by omega]

/-- C4 witness: the amended theorem's in-range store applied at offset 0 of
the singleton array `[9]`, storing `7`. -/
theorem c4_amended_witness :
    (0 : Int) ≤ 0 ∧ (0 : Int) < (([Value.vint 9] : List Value).length : Int) ∧
      arraySetItemOp ⟨.varr [.vint 9], "/"⟩ (.vint 0) (.vint 7) =
        .ok ⟨.varr [.vint 7], "/"⟩ :=
  ⟨by decide, by decide,
    (c4_amended "/" [.vint 9] 0 (.vint 7)).2.2.1 (by decide) (by decide)⟩

/-- C6 counterexample: `selectFromObject` performs no validity check on
`from`: with `from = 5` the `in` operator throws a native host TypeError,
not the library's ParameterError; and with `from = {}` the key
`"toString"` is treated as present (inherited via the `in` operator), so
no KeyNotFoundError is raised — the returned node wraps the inherited
host function. -/
theorem c6_counterexample :
    errOf (selectFromObjectOp ⟨.vstr "k", "/"⟩ (.vint 5)) = some TErr.hostError ∧
      some TErr.hostError ≠ some TErr.paramError ∧
      selectFromObjectOp ⟨.vstr "toString", "/"⟩ (.vobj []) =
        .ok ⟨.vnative "Object.prototype.toString", getSubPath "/" "toString"⟩ :=
  ⟨rfl, by decide, rfl⟩

/-- C6 (amended): on a node wrapping a non-null string key,
`selectFromObject(from)` throws a host-level TypeError (outside the
library's taxonomy, not ParameterError) when `from` is not an object (for
example a number); when `from` is a plain object it returns a new node
wrapping the found member for a key present as an own property, and fails
with KeyNotFoundError only when the key is neither an own property nor
inherited from `Object.prototype`. -/
theorem c6_amended :
    (∀ (p key : String) (n : Int),
      selectFromObjectOp ⟨.vstr key, p⟩ (.vint n) = .error .hostError) ∧
    (∀ (p key : String) (fields : List (String × Value)) (fpair : String × Value),
      fields.any (fun f => f.1 = key) = true →
      fields.find? (fun f => f.1 = key) = some fpair →
        selectFromObjectOp ⟨.vstr key, p⟩ (.vobj fields) =
          .ok ⟨fpair.2, getSubPath p key⟩) ∧
    (∀ (p key : String) (fields : List (String × Value)),
      jsHasProp (.vobj fields) key = false →
        selectFromObjectOp ⟨.vstr key, p⟩ (.vobj fields) = .error .keyNotFound) := by
  refine ⟨fun p key n => rfl, ?_, ?_⟩
  · intro p key fields fpair hany hfind
    simp [selectFromObjectOp, Value.isNullB, jsHasProp, jsGetProp, hany, hfind]
  · intro p key fields hhas
    simp [selectFromObjectOp, Value.isNullB, hhas]

/-- C6 witness: the amended theorem's own-key branch applied at the object
`{a: 1}` with key `"a"`. -/
theorem c6_amended_witness :
    ([("a", Value.vint 1)] : List (String × Value)).any (fun f => f.1 = "a") = true ∧
      ([("a", Value.vint 1)] : List (String × Value)).find? (fun f => f.1 = "a") =
        some ("a", .vint 1) ∧
      selectFromObjectOp ⟨.vstr "a", "/"⟩ (.vobj [("a", .vint 1)]) =
        .ok ⟨.vint 1, getSubPath "/" "a"⟩ :=
  ⟨by decide, rfl,
    c6_amended.2.1 "/" "a" [("a", .vint 1)] ("a", .vint 1) (by decide) rfl⟩

/-- C7: with the default comparator, `min(t)` on a node wrapping a non-null
integer `n` raises ValueOutOfRangeError exactly when `n < t`, and `max(t)`
exactly when `n > t`; in the non-throwing case each returns self. -/
theorem c7_min_max_default_comparator : ∀ (p : String) (n t : Int),
    (minOp ⟨.vint n, p⟩ (.vint t) =
      (if n < t then .error .valueOutOfRange else .ok ⟨.vint n, p⟩)) ∧
    (maxOp ⟨.vint n, p⟩ (.vint t) =
      (if t < n then .error .valueOutOfRange else .ok ⟨.vint n, p⟩)) := by
  intro p n t
  constructor
  · show (if jsLt (.vint n) (.vint t) then (.error .valueOutOfRange : Except TErr Traverse)
        else .ok ⟨.vint n, p⟩) = _
    have hlt : jsLt (.vint n) (.vint t) = decide (n < t) := rfl
    rw [hlt]
    by_cases h : n < t <;> simp [h]
  · show (if jsGt (.vint n) (.vint t) then (.error .valueOutOfRange : Except TErr Traverse)
        else .ok ⟨.vint n, p⟩) = _
    have hgt : jsGt (.vint n) (.vint t) = decide (t < n) := rfl
    rw [hgt]
    by_cases h : t < n <;> simp [h]

/-- C8: `stringToInteger` on a node wrapping a non-null string succeeds
exactly when the string matches the strict-integer grammar (optional
leading minus, no redundant leading zero except the literal zero, with
`"-0"` valid and denoting zero), returning a new node wrapping the parsed
integer at sub-path `[str->int]`; in particular `"0"` and `"-0"` yield 0,
`"-7"` yields -7, and `"007"` and `"7.0"` are rejected with FormatError. -/
theorem c8_stringToInteger :
    (∀ p s : String,
      stringToIntegerOp ⟨.vstr s, p⟩ =
        (if isIntegerStr s then .ok ⟨.vint (parseIntM s), getSubPath p "[str->int]"⟩
         else .error .formatError)) ∧
    isIntegerStr "0" = true ∧ parseIntM "0" = 0 ∧
    isIntegerStr "-0" = true ∧ parseIntM "-0" = 0 ∧
    isIntegerStr "-7" = true ∧ parseIntM "-7" = -7 ∧
    isIntegerStr "007" = false ∧ isIntegerStr "7.0" = false :=
  ⟨fun p s => rfl, by decide, by decide, by decide, by decide, by decide, by decide,
    by decide, by decide⟩

/-- C9 counterexample: the parent's path is not always a *strict* prefix of
a derived child's path: `wrap({"": 42})` has root path `"/"`, and
`sub("")` (the empty-string key is a legal object key) produces a child
node whose path is also exactly `"/"`. -/
theorem c9_counterexample :
    subOp ⟨.vobj [("", .vint 42)], "/"⟩ (.vstr "") = .ok ⟨.vint 42, "/"⟩ ∧
      pathOf (subOp ⟨.vobj [("", .vint 42)], "/"⟩ (.vstr "")) = some "/" ∧
      (wrapObject (.vobj [("", .vint 42)])).path = "/" := ⟨rfl, rfl, rfl⟩

/-- C9 (amended): the parent's path is always a (possibly equal) prefix of
a derived child's path — `_GetSubPath` appends the segment, adding a
separator when needed — and the extension is strict whenever the appended
segment is nonempty; in particular the synthetic segments (such as
`[str->int]`) always extend strictly, while `sub` with the empty-string
key yields a child path equal to the parent's when the parent path ends in
the separator. -/
theorem c9_amended :
    (∀ path name : String,
      (∃ suffix, getSubPath path name = path ++ suffix) ∧
        (name ≠ "" → path.length < (getSubPath path name).length)) ∧
    (∀ (p key : String) (fields : List (String × Value)) (r : Traverse),
      subOp ⟨.vobj fields, p⟩ (.vstr key) = .ok r → ∃ suffix, r.path = p ++ suffix) ∧
    (∀ (t r : Traverse), stringToIntegerOp t = .ok r → t.path.length < r.path.length) := by
  have hmain : ∀ path name : String,
      (∃ suffix, getSubPath path name = path ++ suffix) ∧
        (name ≠ "" → path.length < (getSubPath path name).length) := by
    intro path name
    have hnamelen : name ≠ "" → 0 < name.length := by
      intro hne
      cases hlen : name.length with
      | zero =>
        exact absurd (by
          cases name with
          | mk data =>
            cases data with
            | nil => rfl
            | cons c cs => simp [String.length] at hlen) hne
      | succ m => omega
    rw [getSubPath]
    by_cases hc : path.length = 0 || path.data.getLast? = some '/'
    · rw [if_pos hc]
      refine ⟨⟨name, rfl⟩, ?_⟩
      intro hne
      have := hnamelen hne
      simp only [String.length_append]
      omega
    · rw [if_neg hc]
      refine ⟨⟨"/" ++ name, by rw [String.append_assoc]⟩, ?_⟩
      intro hne
      simp only [String.length_append]
      have : ("/" : String).length = 1 := rfl
      omega
  refine ⟨hmain, ?_, ?_⟩
  · intro p key fields r h
    by_cases hh : jsHasProp (.vobj fields) key
    · have hpath : r.path = getSubPath p key := by
        simp only [subOp, Value.isNullB, Bool.false_eq_true, if_false, hh, if_true] at h
        cases h
        rfl
      obtain ⟨⟨suffix, hs⟩, _⟩ := hmain p key
      exact ⟨suffix, by rw [hpath, ← hs]⟩
    · simp [subOp, Value.isNullB, hh] at h
  · intro t r h
    have hpath : r.path = getSubPath t.path "[str->int]" := by
      simp only [stringToIntegerOp] at h
      split at h
      · exact absurd h (by simp)
      · split at h
        · split at h
          · cases h
            rfl
          · exact absurd h (by simp)
        · exact absurd h (by simp)
        · exact absurd h (by simp)
    have := (hmain t.path "[str->int]").2 (by decide)
    rw [hpath]
    exact this

/-- C9 witness: the amended theorem applied concretely — the `sub` branch
at `{a: 1}` with key `"a"`, and the strict extension of `stringToInteger`
from path `"/"`. -/
theorem c9_amended_witness :
    (∃ suffix, ("/a" : String) = "/" ++ suffix) ∧
      ("/" : String).length < ("/[str->int]" : String).length :=
  ⟨(c9_amended.2.1 "/" "a" [("a", .vint 1)] ⟨.vint 1, "/a"⟩ rfl),
    c9_amended.2.2 ⟨.vstr "5", "/"⟩ ⟨.vint 5, "/[str->int]"⟩ rfl⟩
